import Mathlib

/-!
Verification of the `internal/gen` SPDX model extractor (parser.go) of the
spdx-zen repository.  Go strings are embedded as `List Char`; machine `int`
values as `Int` (cardinality counts in these ontology files are tiny, far
from any overflow); `json.RawMessage` values as a `JSON` value tree; the
fallible `json.Unmarshal` calls as `Option`-returning decoders reproducing
the Go library semantics actually exercised by the parser (a JSON `null`
unmarshals into a Go slice/map/struct/string/int target as a no-op without
error; duplicate object keys are decoded sequentially, so the last valid
occurrence wins; any occurrence of a target field with a mismatched type is
an error).  Go maps are embedded as association lists with replace-or-append
insertion (`insertA`), which preserves key uniqueness; the parser's map
iterations are embedded as folds over those lists in insertion order — every
property proved about an iterated pass is insensitive to that order choice.
-/

namespace Spdx

/-- Go strings, embedded character by character. -/
abbrev Str := List Char

/-- A parsed JSON value, the shallow embedding of `json.RawMessage` contents.
Numeric literals are embedded as integers: the only numbers the parser ever
decodes are the SHACL min/max cardinality counts. -/
inductive JSON where
  | null
  | bool (b : Bool)
  | num (n : Int)
  | str (s : Str)
  | arr (elems : List JSON)
  | obj (fields : List (Str × JSON))

/-- RDFNode from parser.go: `map[string]json.RawMessage`, decoded from a JSON
object.  The field list is kept verbatim; lookups take the last occurrence of
a key, matching Go's sequential object decoding into a map. -/
abbrev RDFNode := List (Str × JSON)

/-- Values stored under a key, in document order (duplicate keys possible). -/
def occurrences (fs : List (Str × JSON)) (key : Str) : List JSON :=
  (fs.filter (fun kv => decide (kv.1 = key))).map (fun kv => kv.2)

/-- Map-style access `node[key]`: the last occurrence of the key wins. -/
def getRaw (node : RDFNode) (key : Str) : Option JSON :=
  (occurrences node key).getLast?

/-- Vocabulary constant from parser.go. -/
def owlClass : Str := "http://www.w3.org/2002/07/owl#Class".toList

/-- Vocabulary constant from parser.go. -/
def owlNamedIndividual : Str := "http://www.w3.org/2002/07/owl#NamedIndividual".toList

/-- Vocabulary constant from parser.go. -/
def owlObjectProperty : Str := "http://www.w3.org/2002/07/owl#ObjectProperty".toList

/-- Vocabulary constant from parser.go. -/
def owlDatatypeProperty : Str := "http://www.w3.org/2002/07/owl#DatatypeProperty".toList

/-- Vocabulary constant from parser.go. -/
def rdfsSubClassOf : Str := "http://www.w3.org/2000/01/rdf-schema#subClassOf".toList

/-- Vocabulary constant from parser.go. -/
def rdfsComment : Str := "http://www.w3.org/2000/01/rdf-schema#comment".toList

/-- Vocabulary constant from parser.go. -/
def rdfsLabel : Str := "http://www.w3.org/2000/01/rdf-schema#label".toList

/-- Vocabulary constant from parser.go. -/
def rdfsRange : Str := "http://www.w3.org/2000/01/rdf-schema#range".toList

/-- Vocabulary constant from parser.go. -/
def shaclNodeShape : Str := "http://www.w3.org/ns/shacl#NodeShape".toList

/-- Vocabulary constant from parser.go. -/
def shaclProperty : Str := "http://www.w3.org/ns/shacl#property".toList

/-- Vocabulary constant from parser.go. -/
def shaclPath : Str := "http://www.w3.org/ns/shacl#path".toList

/-- Vocabulary constant from parser.go. -/
def shaclDatatype : Str := "http://www.w3.org/ns/shacl#datatype".toList

/-- Vocabulary constant from parser.go. -/
def shaclClass : Str := "http://www.w3.org/ns/shacl#class".toList

/-- Vocabulary constant from parser.go. -/
def shaclMinCount : Str := "http://www.w3.org/ns/shacl#minCount".toList

/-- Vocabulary constant from parser.go. -/
def shaclMaxCount : Str := "http://www.w3.org/ns/shacl#maxCount".toList

/-- Vocabulary constant from parser.go. -/
def shaclNodeKind : Str := "http://www.w3.org/ns/shacl#nodeKind".toList

/-- Vocabulary constant from parser.go. -/
def shaclIn : Str := "http://www.w3.org/ns/shacl#in".toList

/-- Vocabulary constant from parser.go. -/
def shaclMessage : Str := "http://www.w3.org/ns/shacl#message".toList

/-- Vocabulary constant from parser.go. -/
def spdxBaseURI : Str := "https://spdx.org/rdf/3.0.1/terms/".toList

/-- Go `json.Unmarshal` of a sequence of duplicate-key occurrences into a
`string` field: each occurrence must be a JSON string (assigned) or `null`
(no-op); anything else is an unmarshal error. -/
def fieldStrGo (occs : List JSON) : Option Str :=
  occs.foldlM (fun acc v =>
    match v with
    | .str s => some s
    | .null => some acc
    | _ => none) []

/-- Go `json.Unmarshal` of duplicate-key occurrences into an `int` field. -/
def fieldIntGo (occs : List JSON) : Option Int :=
  occs.foldlM (fun acc v =>
    match v with
    | .num n => some n
    | .null => some acc
    | _ => none) 0

/-- Unmarshal into Go `struct { ID string }` with tag `@id` (parser.go uses
this anonymous struct for every object-reference value).  A non-object,
non-null value is an error; a missing `@id` leaves the zero value `""`. -/
def unmarshalIDRef : JSON → Option Str
  | .null => some []
  | .obj fs => fieldStrGo (occurrences fs "@id".toList)
  | _ => none

/-- Unmarshal into Go `struct { Value string }` with tag `@value` (used for
labels and for the SHACL message literal). -/
def unmarshalValueStr : JSON → Option Str
  | .null => some []
  | .obj fs => fieldStrGo (occurrences fs "@value".toList)
  | _ => none

/-- Unmarshal into Go `struct { Value string; Language string }` with tags
`@value`/`@language` (used for rdfs:comment literals): both fields must
decode, the language tag is then discarded by the caller. -/
def unmarshalComment : JSON → Option Str
  | .null => some []
  | .obj fs =>
    match fieldStrGo (occurrences fs "@value".toList),
          fieldStrGo (occurrences fs "@language".toList) with
    | some v, some _ => some v
    | _, _ => none
  | _ => none

/-- Unmarshal into Go `struct { Value int }` with tag `@value` (used for the
SHACL min/max cardinality literals). -/
def unmarshalValueInt : JSON → Option Int
  | .null => some 0
  | .obj fs => fieldIntGo (occurrences fs "@value".toList)
  | _ => none

/-- Go `json.Unmarshal` of duplicate-key occurrences into a
`[]struct { ID string }` field: each occurrence must be an array of
object references (assigned) or `null` (no-op). -/
def fieldListGo (occs : List JSON) : Option (List Str) :=
  occs.foldlM (fun acc v =>
    match v with
    | .arr xs => xs.mapM unmarshalIDRef
    | .null => some acc
    | _ => none) []

/-- Unmarshal into Go `struct { List []struct { ID string } }` with tag
`@list` (used for the sh:in closed value set). -/
def unmarshalInList : JSON → Option (List Str)
  | .null => some []
  | .obj fs => fieldListGo (occurrences fs "@list".toList)
  | _ => none

/-- Parser.getString: unmarshal `node[key]` as a bare JSON string, with the
empty string returned on a missing key or on any unmarshal error. -/
def getString (node : RDFNode) (key : Str) : Str :=
  match getRaw node key with
  | some (.str s) => s
  | _ => []

/-- Parser.getTypes: decode `node["@type"]` as `[]string`; on error fall back
to a single bare string; otherwise no types.  A `null` raw value or a `null`
array element decodes without error into the zero value. -/
def getTypes (node : RDFNode) : List Str :=
  match getRaw node "@type".toList with
  | none => []
  | some (.arr xs) =>
    match xs.mapM (fun x =>
      match x with
      | .str s => some s
      | .null => some ([] : Str)
      | _ => none) with
    | some ts => ts
    | none => []
  | some (.str s) => [s]
  | some _ => []

/-- Parser.getArray: decode `node[key]` as `[]json.RawMessage`; every element
of a JSON array is itself a valid raw message, so only a non-array value is
an error, and errors (and `null`, and a missing key) all yield `nil`. -/
def getArray (node : RDFNode) (key : Str) : List JSON :=
  match getRaw node key with
  | some (.arr xs) => xs
  | _ => []

/-- Parser.getComment: the first rdfs:comment entry, decoded as a
`@value`/`@language` literal, empty on any failure. -/
def getComment (node : RDFNode) : Str :=
  match getArray node rdfsComment with
  | [] => []
  | c :: _ =>
    match unmarshalComment c with
    | some v => v
    | none => []

/-- Parser.getLabel: the first rdfs:label entry, decoded as a `@value`
literal, empty on any failure. -/
def getLabel (node : RDFNode) : Str :=
  match getArray node rdfsLabel with
  | [] => []
  | l :: _ =>
    match unmarshalValueStr l with
    | some v => v
    | none => []

/-- Parser.containsType: linear membership scan of a type list. -/
def containsType (types : List Str) (target : Str) : Bool :=
  types.any (fun t => decide (t = target))

/-- Lowercasing as used via strings.ToLower on the abstract-marker message
(ASCII case folding; the marker substring is plain ASCII). -/
def toLowerStr (s : Str) : Str := s.map Char.toLower

/-- strings.Contains: `sub` occurs as a contiguous substring of `s`. -/
def containsSub (s sub : Str) : Bool :=
  s.tails.any (fun t => sub.isPrefixOf t)

/-- extractName from parser.go: the suffix after the last `/` if the IRI
contains one, else after the last `#` if one exists, else the IRI itself. -/
def afterLast (c : Char) : Str → Option Str
  | [] => none
  | x :: rest =>
    match afterLast c rest with
    | some t => some t
    | none => if x = c then some rest else none

/-- extractName from parser.go (see `afterLast` for the search order). -/
def extractName (iri : Str) : Str :=
  match afterLast '/' iri with
  | some t => t
  | none =>
    match afterLast '#' iri with
    | some t => t
    | none => iri

/-- The prefix of `s` strictly before the first occurrence of `c`, or all of
`s` when `c` does not occur (strings.Index plus slicing in extractNamespace). -/
def upToFirst (c : Char) : Str → Str
  | [] => []
  | x :: rest => if x = c then [] else x :: upToFirst c rest

/-- extractNamespace from parser.go: the path segment immediately after the
fixed SPDX base URI, or empty when the IRI lies outside that base. -/
def extractNamespace (iri : Str) : Str :=
  if spdxBaseURI.isPrefixOf iri then
    upToFirst '/' (iri.drop spdxBaseURI.length)
  else []

/-- extractEnumValueName from parser.go: suffix after the last `/` only. -/
def extractEnumValueName (iri : Str) : Str :=
  match afterLast '/' iri with
  | some t => t
  | none => iri

/-- PropertyRef from model.go (a field of a class, built from a SHACL
property shape). -/
structure PropertyRef where
  Path : Str
  Name : Str
  DataType : Str
  MinCount : Int
  MaxCount : Int
  NodeKind : Str
  ClassRef : Str
  InValues : List Str
deriving DecidableEq, Repr

/-- Class from model.go. -/
structure Class where
  ID : Str
  Name : Str
  Comment : Str
  Parent : Str
  Properties : List PropertyRef
  IsAbstract : Bool
  NodeKind : Str
  Namespace : Str
deriving DecidableEq, Repr

/-- Property from model.go. -/
structure Property where
  ID : Str
  Name : Str
  Comment : Str
  Range : Str
  IsObject : Bool
  Namespace : Str
deriving DecidableEq, Repr

/-- EnumValue from model.go. -/
structure EnumValue where
  ID : Str
  Name : Str
  Label : Str
  Comment : Str
deriving DecidableEq, Repr

/-- Enum from model.go. -/
structure Enum where
  ID : Str
  Name : Str
  Comment : Str
  Values : List EnumValue
  Namespace : Str
deriving DecidableEq, Repr

/-- Model from model.go; the three Go maps are embedded as association
lists built exclusively with `insertA`, so their keys stay unique. -/
structure Model where
  SpecVersion : Str
  Classes : List (Str × Class)
  Properties : List (Str × Property)
  Enums : List (Str × Enum)
deriving DecidableEq, Repr

/-- Go map insertion: replace the binding if the key is present, else append. -/
def insertA {α : Type} : List (Str × α) → Str → α → List (Str × α)
  | [], k, v => [(k, v)]
  | (k', v') :: rest, k, v =>
    if k' = k then (k, v) :: rest else (k', v') :: insertA rest k v

/-- Go map lookup on an association list with unique keys. -/
def lookupA {α : Type} : List (Str × α) → Str → Option α
  | [], _ => none
  | (k', v') :: rest, k => if k' = k then some v' else lookupA rest k

/-- Update step for Class.Parent inside parseClass: first rdfs:subClassOf
entry, decoded as an object reference; absorbed on failure. -/
def classSetParent (node : RDFNode) (c : Class) : Class :=
  match getArray node rdfsSubClassOf with
  | [] => c
  | r :: _ =>
    match unmarshalIDRef r with
    | some s => { c with Parent := s }
    | none => c

/-- Update step for Class.NodeKind inside parseClass. -/
def classSetNodeKind (node : RDFNode) (c : Class) : Class :=
  match getArray node shaclNodeKind with
  | [] => c
  | r :: _ =>
    match unmarshalIDRef r with
    | some s => { c with NodeKind := s }
    | none => c

/-- parseClass from parser.go (always returns a value; the Go function
returns a pointer that is non-nil on every path). -/
def parseClass (id : Str) (node : RDFNode) : Class :=
  classSetNodeKind node (classSetParent node
    { ID := id, Name := extractName id, Comment := getComment node,
      Parent := [], Properties := [], IsAbstract := false,
      NodeKind := [], Namespace := extractNamespace id })

/-- Update step for Property.Range inside parseProperty. -/
def propSetRange (node : RDFNode) (p : Property) : Property :=
  match getArray node rdfsRange with
  | [] => p
  | r :: _ =>
    match unmarshalIDRef r with
    | some s => { p with Range := s }
    | none => p

/-- parseProperty from parser.go. -/
def parseProperty (id : Str) (node : RDFNode) (isObject : Bool) : Property :=
  propSetRange node
    { ID := id, Name := extractName id, Comment := getComment node,
      Range := [], IsObject := isObject, Namespace := extractNamespace id }

/-- Update step for PropertyRef.Path/Name inside parsePropertyRef. -/
def prSetPath (node : RDFNode) (pr : PropertyRef) : PropertyRef :=
  match getArray node shaclPath with
  | [] => pr
  | r :: _ =>
    match unmarshalIDRef r with
    | some s => { pr with Path := s, Name := extractName s }
    | none => pr

/-- Update step for PropertyRef.DataType inside parsePropertyRef. -/
def prSetDatatype (node : RDFNode) (pr : PropertyRef) : PropertyRef :=
  match getArray node shaclDatatype with
  | [] => pr
  | r :: _ =>
    match unmarshalIDRef r with
    | some s => { pr with DataType := s }
    | none => pr

/-- Update step for PropertyRef.ClassRef inside parsePropertyRef. -/
def prSetClassRef (node : RDFNode) (pr : PropertyRef) : PropertyRef :=
  match getArray node shaclClass with
  | [] => pr
  | r :: _ =>
    match unmarshalIDRef r with
    | some s => { pr with ClassRef := s }
    | none => pr

/-- Update step for PropertyRef.MinCount inside parsePropertyRef. -/
def prSetMinCount (node : RDFNode) (pr : PropertyRef) : PropertyRef :=
  match getArray node shaclMinCount with
  | [] => pr
  | r :: _ =>
    match unmarshalValueInt r with
    | some v => { pr with MinCount := v }
    | none => pr

/-- Update step for PropertyRef.MaxCount inside parsePropertyRef. -/
def prSetMaxCount (node : RDFNode) (pr : PropertyRef) : PropertyRef :=
  match getArray node shaclMaxCount with
  | [] => pr
  | r :: _ =>
    match unmarshalValueInt r with
    | some v => { pr with MaxCount := v }
    | none => pr

/-- Update step for PropertyRef.NodeKind inside parsePropertyRef. -/
def prSetNodeKind (node : RDFNode) (pr : PropertyRef) : PropertyRef :=
  match getArray node shaclNodeKind with
  | [] => pr
  | r :: _ =>
    match unmarshalIDRef r with
    | some s => { pr with NodeKind := s }
    | none => pr

/-- Update step for PropertyRef.InValues inside parsePropertyRef: appends
the decoded `@list` references onto the (initially empty) slice. -/
def prSetIn (node : RDFNode) (pr : PropertyRef) : PropertyRef :=
  match getArray node shaclIn with
  | [] => pr
  | r :: _ =>
    match unmarshalInList r with
    | some ids => { pr with InValues := pr.InValues ++ ids }
    | none => pr

/-- The zero-initialised PropertyRef of parsePropertyRef: every string field
empty, MinCount 0, MaxCount -1 (the unbounded sentinel). -/
def initPropertyRef : PropertyRef :=
  { Path := [], Name := [], DataType := [], MinCount := 0, MaxCount := -1,
    NodeKind := [], ClassRef := [], InValues := [] }

/-- parsePropertyRef from parser.go: the sequential field updates applied to
the zero-initialised record.  The Go function returns a pointer that is
non-nil on every return path, so the embedding is a total function. -/
def parsePropertyRef (node : RDFNode) : PropertyRef :=
  prSetIn node (prSetNodeKind node (prSetMaxCount node (prSetMinCount node
    (prSetClassRef node (prSetDatatype node (prSetPath node initPropertyRef))))))

/-- isAbstractMarker from parser.go: the first sh:message entry, decoded as a
`@value` literal, lowercased, tested for the substring of the marker word. -/
def isAbstractMarker (node : RDFNode) : Bool :=
  match getArray node shaclMessage with
  | [] => false
  | m :: _ =>
    match unmarshalValueStr m with
    | some s => containsSub (toLowerStr s) "abstract".toList
    | none => false

/-- The EnumValue built for a named individual in the second pass. -/
def parseEnumValue (id : Str) (node : RDFNode) : EnumValue :=
  { ID := id, Name := extractEnumValueName id, Label := getLabel node,
    Comment := getComment node }

/-- The freshly created Enum of the second pass, with the comment copied from
the class node of the same IRI when one is indexed. -/
def newEnum (allNodes : List (Str × RDFNode)) (enumID : Str) : Enum :=
  let e : Enum := { ID := enumID, Name := extractName enumID, Comment := [],
                    Values := [], Namespace := extractNamespace enumID }
  match lookupA allNodes enumID with
  | some classNode => { e with Comment := getComment classNode }
  | none => e

/-- The inner loop of the second pass over a named individual's type list:
the first type under the SPDX base URI (other than the named-individual
marker) selects the enum; a type naming a class with a non-empty parent is
passed over (`continue`); appending the value ends the scan (`break`). -/
def enumLoop (allNodes : List (Str × RDFNode)) (classes : List (Str × Class))
    (id : Str) (node : RDFNode) (enums : List (Str × Enum)) :
    List Str → List (Str × Enum)
  | [] => enums
  | t :: rest =>
    if spdxBaseURI.isPrefixOf t && !(decide (t = owlNamedIndividual)) then
      match lookupA enums t with
      | some e =>
        insertA enums t { e with Values := e.Values ++ [parseEnumValue id node] }
      | none =>
        match lookupA classes t with
        | some c =>
          if c.Parent = [] then
            let e := newEnum allNodes t
            insertA enums t { e with Values := e.Values ++ [parseEnumValue id node] }
          else enumLoop allNodes classes id node enums rest
        | none =>
          let e := newEnum allNodes t
          insertA enums t { e with Values := e.Values ++ [parseEnumValue id node] }
    else enumLoop allNodes classes id node enums rest

/-- One iteration of the first pass: materialise Class and Property records
for every matching classification of the node (the predicates are not
mutually exclusive; a datatype-property parse overwrites an earlier
object-property parse under the same key). -/
def pass1Step (m : Model) (entry : Str × RDFNode) : Model :=
  let types := getTypes entry.2
  let m1 := if containsType types owlClass then
      { m with Classes := insertA m.Classes entry.1 (parseClass entry.1 entry.2) }
    else m
  let m2 := if containsType types owlObjectProperty then
      { m1 with Properties := insertA m1.Properties entry.1 (parseProperty entry.1 entry.2 true) }
    else m1
  if containsType types owlDatatypeProperty then
    { m2 with Properties := insertA m2.Properties entry.1 (parseProperty entry.1 entry.2 false) }
  else m2

/-- One iteration of the second pass: only named individuals contribute. -/
def pass2Step (allNodes : List (Str × RDFNode)) (classes : List (Str × Class))
    (enums : List (Str × Enum)) (entry : Str × RDFNode) : List (Str × Enum) :=
  let types := getTypes entry.2
  if containsType types owlNamedIndividual then
    enumLoop allNodes classes entry.1 entry.2 enums types
  else enums

/-- Resolution of one sh:property list entry to its blank node: decode the
object reference, then look it up in the blank-node table; either failure is
absorbed (`continue`). -/
def resolveShapeEntry (blanks : List (Str × RDFNode)) (raw : JSON) :
    Option RDFNode :=
  match unmarshalIDRef raw with
  | none => none
  | some refID => lookupA blanks refID

/-- One sh:property list entry applied to a class in the third pass: an
abstract-class marker sets IsAbstract and is discarded; every other resolved
blank node appends its PropertyRef. -/
def shapeStep (blanks : List (Str × RDFNode)) (c : Class) (raw : JSON) : Class :=
  match resolveShapeEntry blanks raw with
  | none => c
  | some b =>
    if isAbstractMarker b then { c with IsAbstract := true }
    else { c with Properties := c.Properties ++ [parsePropertyRef b] }

/-- The whole sh:property list of a node shape applied to its class. -/
def applyShape (blanks : List (Str × RDFNode)) (c : Class) (node : RDFNode) :
    Class :=
  (getArray node shaclProperty).foldl (shapeStep blanks) c

/-- One iteration of the third pass: a node shape whose IRI names a built
class rewrites that class; shapes over unknown classes are skipped. -/
def pass3Step (blanks : List (Str × RDFNode)) (classes : List (Str × Class))
    (entry : Str × RDFNode) : List (Str × Class) :=
  if containsType (getTypes entry.2) shaclNodeShape then
    match lookupA classes entry.1 with
    | none => classes
    | some c => insertA classes entry.1 (applyShape blanks c entry.2)
  else classes

/-- The two node tables of the Parser struct. -/
structure GraphIndex where
  nodes : List (Str × RDFNode)
  blankNodes : List (Str × RDFNode)

/-- One iteration of the indexing loop of ParseFile: nodes without an `@id`
are skipped; a blank-node label is routed to the blank table. -/
def indexStep (st : GraphIndex) (node : RDFNode) : GraphIndex :=
  let id := getString node "@id".toList
  if id = [] then st
  else if "_:".toList.isPrefixOf id then
    { st with blankNodes := insertA st.blankNodes id node }
  else { st with nodes := insertA st.nodes id node }

/-- The indexing loop of ParseFile over the decoded node array. -/
def indexNodes (ns : List RDFNode) : GraphIndex :=
  ns.foldl indexStep { nodes := [], blankNodes := [] }

/-- The three sequential passes of ParseFile after indexing; NewModel leaves
SpecVersion empty and ParseFile never assigns it. -/
def extractModel (ns : List RDFNode) : Model :=
  let st := indexNodes ns
  let m1 := st.nodes.foldl pass1Step
    { SpecVersion := [], Classes := [], Properties := [], Enums := [] }
  let m2 := { m1 with Enums := st.nodes.foldl (pass2Step st.nodes m1.Classes) m1.Enums }
  { m2 with Classes := st.nodes.foldl (pass3Step st.blankNodes) m2.Classes }

/-- Go `json.Unmarshal` of one element of the top-level array into an
RDFNode map: the element must be an object (or `null`, a no-op leaving the
nil map). -/
def decodeNode : JSON → Option RDFNode
  | .obj fs => some fs
  | .null => some []
  | _ => none

/-- Sequential decode of the top-level array elements; the first element
that is not an object (or `null`) fails the whole unmarshal, as in Go. -/
def decodeNodeList : List JSON → Option (List RDFNode)
  | [] => some []
  | x :: rest =>
    match decodeNode x, decodeNodeList rest with
    | some n, some ns => some (n :: ns)
    | _, _ => none

/-- Go `json.Unmarshal` of the file contents into `[]RDFNode`: the top level
must be an array (or `null`, a no-op leaving the nil slice). -/
def decodeNodes : JSON → Option (List RDFNode)
  | .arr xs => decodeNodeList xs
  | .null => some []
  | _ => none

/-- The observable outcome of os.ReadFile plus lexing the bytes as JSON. -/
inductive FileInput where
  | unreadable
  | invalidJSON
  | jsonValue (j : JSON)

/-- The two fatal error classes of ParseFile. -/
inductive ParseError where
  | readError
  | unmarshalError
deriving DecidableEq, Repr

/-- ParseFile from parser.go: read, unmarshal the top level, then run the
three-pass extraction, which is total. -/
def parseFile : FileInput → Except ParseError Model
  | .unreadable => .error .readError
  | .invalidJSON => .error .unmarshalError
  | .jsonValue j =>
    match decodeNodes j with
    | none => .error .unmarshalError
    | some ns => .ok (extractModel ns)

end Spdx

namespace Spdx

/-- Key uniqueness of an association list; every table in the embedding is
built exclusively with `insertA`, which preserves it. -/
def UniqKeys {α : Type} (m : List (Str × α)) : Prop :=
  m.Pairwise (fun a b => a.1 ≠ b.1)

theorem lookupA_insertA_self {α : Type} (m : List (Str × α)) (k : Str) (v : α) :
    lookupA (insertA m k v) k = some v := by
  induction m with
  | nil => simp [insertA, lookupA]
  | cons hd tl ih =>
    obtain ⟨a, b⟩ := hd
    by_cases h : a = k
    · simp [insertA, lookupA, h]
    · simp [insertA, lookupA, h, ih]

theorem lookupA_insertA_ne {α : Type} (m : List (Str × α)) (k k' : Str) (v : α)
    (h : k ≠ k') : lookupA (insertA m k v) k' = lookupA m k' := by
  induction m with
  | nil => simp [insertA, lookupA, h]
  | cons hd tl ih =>
    obtain ⟨a, b⟩ := hd
    by_cases ha : a = k
    · subst ha
      simp [insertA, lookupA, h]
    · simp [insertA, lookupA, ha, ih]

theorem mem_insertA {α : Type} {m : List (Str × α)} {k : Str} {v : α} {e : Str × α}
    (h : e ∈ insertA m k v) : e = (k, v) ∨ e ∈ m := by
  induction m with
  | nil => simpa [insertA] using h
  | cons hd tl ih =>
    obtain ⟨a, b⟩ := hd
    by_cases ha : a = k
    · simp only [insertA, if_pos ha, List.mem_cons] at h
      rcases h with h | h
      · exact Or.inl h
      · exact Or.inr (List.mem_cons_of_mem _ h)
    · simp only [insertA, if_neg ha, List.mem_cons] at h
      rcases h with h | h
      · exact Or.inr (by simp [h])
      · rcases ih h with h' | h'
        · exact Or.inl h'
        · exact Or.inr (List.mem_cons_of_mem _ h')

theorem uniqKeys_insertA {α : Type} {m : List (Str × α)} (hu : UniqKeys m)
    (k : Str) (v : α) : UniqKeys (insertA m k v) := by
  induction m with
  | nil => simp [insertA, UniqKeys]
  | cons hd tl ih =>
    obtain ⟨a, b⟩ := hd
    rw [UniqKeys, List.pairwise_cons] at hu
    by_cases ha : a = k
    · subst ha
      rw [insertA, if_pos rfl, UniqKeys, List.pairwise_cons]
      exact ⟨hu.1, hu.2⟩
    · rw [insertA, if_neg ha, UniqKeys, List.pairwise_cons]
      refine ⟨?_, ih hu.2⟩
      intro e he
      rcases mem_insertA he with h' | h'
      · subst h'; exact ha
      · exact hu.1 e h'

theorem lookupA_mem {α : Type} {m : List (Str × α)} {k : Str} {v : α}
    (h : lookupA m k = some v) : (k, v) ∈ m := by
  induction m with
  | nil => simp [lookupA] at h
  | cons hd tl ih =>
    obtain ⟨a, b⟩ := hd
    by_cases ha : a = k
    · subst ha
      rw [lookupA, if_pos rfl] at h
      cases h
      exact List.mem_cons_self _ _
    · rw [lookupA, if_neg ha] at h
      exact List.mem_cons_of_mem _ (ih h)

/-- PropertyRef contribution of one sh:property entry: nothing for an
unresolvable entry or an abstract marker, exactly one ref otherwise. -/
def entryRef (blanks : List (Str × RDFNode)) (raw : JSON) : List PropertyRef :=
  match resolveShapeEntry blanks raw with
  | none => []
  | some b => if isAbstractMarker b then [] else [parsePropertyRef b]

/-- Whether one sh:property entry resolves to an abstract-class marker. -/
def entryMarks (blanks : List (Str × RDFNode)) (raw : JSON) : Bool :=
  match resolveShapeEntry blanks raw with
  | none => false
  | some b => isAbstractMarker b

/-- All PropertyRefs contributed by a sh:property list, in list order. -/
def collectRefs (blanks : List (Str × RDFNode)) : List JSON → List PropertyRef
  | [] => []
  | raw :: rest => entryRef blanks raw ++ collectRefs blanks rest

/-- Whether any entry of a sh:property list is an abstract-class marker. -/
def anyMarker (blanks : List (Str × RDFNode)) (es : List JSON) : Bool :=
  es.any (entryMarks blanks)

theorem shapeFold_eq (blanks : List (Str × RDFNode)) (c : Class) (es : List JSON) :
    es.foldl (shapeStep blanks) c =
      { c with Properties := c.Properties ++ collectRefs blanks es,
               IsAbstract := c.IsAbstract || anyMarker blanks es } := by
  induction es generalizing c with
  | nil => simp [collectRefs, anyMarker]
  | cons raw rest ih =>
    rw [List.foldl_cons, ih]
    unfold shapeStep
    cases h : resolveShapeEntry blanks raw with
    | none =>
      simp [collectRefs, anyMarker, entryRef, entryMarks, h]
    | some b =>
      by_cases hm : isAbstractMarker b
      · simp [collectRefs, anyMarker, entryRef, entryMarks, h, hm]
      · simp [collectRefs, anyMarker, entryRef, entryMarks, h, hm]

theorem applyShape_eq (blanks : List (Str × RDFNode)) (c : Class) (node : RDFNode) :
    applyShape blanks c node =
      { c with Properties := c.Properties ++ collectRefs blanks (getArray node shaclProperty),
               IsAbstract := c.IsAbstract || anyMarker blanks (getArray node shaclProperty) } :=
  shapeFold_eq blanks c _

theorem applyShape_Parent (blanks : List (Str × RDFNode)) (c : Class) (node : RDFNode) :
    (applyShape blanks c node).Parent = c.Parent := by
  rw [applyShape_eq]

theorem applyShape_ID (blanks : List (Str × RDFNode)) (c : Class) (node : RDFNode) :
    (applyShape blanks c node).ID = c.ID := by
  rw [applyShape_eq]

end Spdx

namespace Spdx

theorem foldl_inv {β γ : Type} {P : β → Prop} {step : β → γ → β} :
    ∀ (l : List γ) (init : β), P init →
      (∀ b e, e ∈ l → P b → P (step b e)) → P (l.foldl step init) := by
  intro l
  induction l with
  | nil => intro init h _; exact h
  | cons e rest ih =>
    intro init h hstep
    exact ih (step init e) (hstep init e (List.mem_cons_self _ _) h)
      (fun b e' he' hb => hstep b e' (List.mem_cons_of_mem _ he') hb)

/-- The first pass never touches the Enums table. -/
theorem pass1Step_Enums (m : Model) (e : Str × RDFNode) :
    (pass1Step m e).Enums = m.Enums := by
  simp only [pass1Step]
  repeat' split
  all_goals rfl

/-- The first pass leaves every class it builds with an empty property list. -/
theorem parseClass_Properties (id : Str) (node : RDFNode) :
    (parseClass id node).Properties = [] := by
  unfold parseClass classSetNodeKind classSetParent
  repeat' split
  all_goals rfl

theorem parseClass_ID (id : Str) (node : RDFNode) : (parseClass id node).ID = id := by
  unfold parseClass classSetNodeKind classSetParent
  repeat' split
  all_goals rfl

theorem parseProperty_ID (id : Str) (node : RDFNode) (isObject : Bool) :
    (parseProperty id node isObject).ID = id := by
  unfold parseProperty propSetRange
  repeat' split
  all_goals rfl

theorem parseProperty_IsObject (id : Str) (node : RDFNode) (isObject : Bool) :
    (parseProperty id node isObject).IsObject = isObject := by
  unfold parseProperty propSetRange
  repeat' split
  all_goals rfl

theorem newEnum_ID (allNodes : List (Str × RDFNode)) (enumID : Str) :
    (newEnum allNodes enumID).ID = enumID := by
  unfold newEnum
  repeat' split
  all_goals rfl

/-- Lookup in the Properties table is untouched by a first-pass iteration
over a different key. -/
theorem pass1Step_props_ne (m : Model) (e : Str × RDFNode) (k : Str)
    (h : e.1 ≠ k) : lookupA (pass1Step m e).Properties k = lookupA m.Properties k := by
  simp only [pass1Step]
  repeat' split
  all_goals simp [lookupA_insertA_ne _ _ _ _ h]

theorem pass1_fold_props_frozen (idx : List (Str × RDFNode)) (m : Model) (k : Str)
    (h : ∀ e ∈ idx, e.1 ≠ k) :
    lookupA (idx.foldl pass1Step m).Properties k = lookupA m.Properties k := by
  induction idx generalizing m with
  | nil => rfl
  | cons e rest ih =>
    rw [List.foldl_cons, ih _ (fun e' he' => h e' (List.mem_cons_of_mem _ he')),
      pass1Step_props_ne _ _ _ (h e (List.mem_cons_self _ _))]

/-- A node classified both as an object property and as a datatype property:
the datatype parse runs last and is what the Properties table records. -/
theorem pass1_fold_props_processed (idx : List (Str × RDFNode)) (m : Model)
    (k : Str) (node : RDFNode) (hu : UniqKeys idx) (hmem : (k, node) ∈ idx)
    (hd : containsType (getTypes node) owlDatatypeProperty = true) :
    lookupA (idx.foldl pass1Step m).Properties k = some (parseProperty k node false) := by
  obtain ⟨s, t, rfl⟩ := List.append_of_mem hmem
  rw [UniqKeys, List.pairwise_append] at hu
  have ht : ∀ e ∈ t, e.1 ≠ k := by
    have := (List.pairwise_cons.mp hu.2.1).1
    intro e he
    exact fun h' => (this e he) h'.symm
  rw [List.foldl_append, List.foldl_cons,
    pass1_fold_props_frozen _ _ _ ht]
  simp [pass1Step, hd, lookupA_insertA_self]

/-- Lookup in the classes table is untouched by a third-pass iteration over a
different key. -/
theorem pass3Step_ne (blanks : List (Str × RDFNode)) (classes : List (Str × Class))
    (e : Str × RDFNode) (k : Str) (h : e.1 ≠ k) :
    lookupA (pass3Step blanks classes e) k = lookupA classes k := by
  simp only [pass3Step]
  repeat' split
  all_goals simp [lookupA_insertA_ne _ _ _ _ h]

theorem pass3_fold_frozen (blanks : List (Str × RDFNode)) (idx : List (Str × RDFNode))
    (classes : List (Str × Class)) (k : Str) (h : ∀ e ∈ idx, e.1 ≠ k) :
    lookupA (idx.foldl (pass3Step blanks) classes) k = lookupA classes k := by
  induction idx generalizing classes with
  | nil => rfl
  | cons e rest ih =>
    rw [List.foldl_cons, ih _ (fun e' he' => h e' (List.mem_cons_of_mem _ he')),
      pass3Step_ne _ _ _ _ (h e (List.mem_cons_self _ _))]

/-- The class table entry written by one third-pass iteration on its own key. -/
theorem pass3Step_self (blanks : List (Str × RDFNode)) (classes : List (Str × Class))
    (k : Str) (node : RDFNode) (hs : containsType (getTypes node) shaclNodeShape = true) :
    lookupA (pass3Step blanks classes (k, node)) k =
      (lookupA classes k).map (fun c => applyShape blanks c node) := by
  simp only [pass3Step]
  cases hc : lookupA classes k with
  | none => simp [hs, hc]
  | some c => simp [hs, hc, lookupA_insertA_self]

/-- The third pass rewrites the class of a shape node by `applyShape` applied
to its sh:property list, exactly once. -/
theorem pass3_fold_processed (blanks : List (Str × RDFNode))
    (idx : List (Str × RDFNode)) (classes : List (Str × Class)) (k : Str)
    (node : RDFNode) (hu : UniqKeys idx) (hmem : (k, node) ∈ idx)
    (hs : containsType (getTypes node) shaclNodeShape = true) :
    lookupA (idx.foldl (pass3Step blanks) classes) k =
      (lookupA classes k).map (fun c => applyShape blanks c node) := by
  obtain ⟨s, t, rfl⟩ := List.append_of_mem hmem
  rw [UniqKeys, List.pairwise_append] at hu
  have hsfr : ∀ e ∈ s, e.1 ≠ k :=
    fun e he => hu.2.2 e he (k, node) (List.mem_cons_self _ _)
  have ht : ∀ e ∈ t, e.1 ≠ k := by
    have := (List.pairwise_cons.mp hu.2.1).1
    intro e he
    exact fun h' => (this e he) h'.symm
  rw [List.foldl_append, List.foldl_cons, pass3_fold_frozen _ _ _ _ ht,
    pass3Step_self _ _ _ _ hs, pass3_fold_frozen _ _ _ _ hsfr]

/-- The third pass never changes the Parent of any class. -/
theorem pass3Step_Parent (blanks : List (Str × RDFNode))
    (classes : List (Str × Class)) (e : Str × RDFNode) (k : Str) :
    (lookupA (pass3Step blanks classes e) k).map (fun c => c.Parent) =
      (lookupA classes k).map (fun c => c.Parent) := by
  obtain ⟨id, node⟩ := e
  by_cases hk : id = k
  · subst hk
    by_cases hs : containsType (getTypes node) shaclNodeShape = true
    · rw [pass3Step_self _ _ _ _ hs]
      cases hc : lookupA classes id with
      | none => rfl
      | some c => simp [applyShape_Parent]
    · simp only [pass3Step]
      rw [if_neg hs]
  · rw [pass3Step_ne _ _ _ _ hk]

theorem pass3_fold_Parent (blanks : List (Str × RDFNode))
    (idx : List (Str × RDFNode)) (classes : List (Str × Class)) (k : Str) :
    (lookupA (idx.foldl (pass3Step blanks) classes) k).map (fun c => c.Parent) =
      (lookupA classes k).map (fun c => c.Parent) := by
  induction idx generalizing classes with
  | nil => rfl
  | cons e rest ih => rw [List.foldl_cons, ih, pass3Step_Parent]

end Spdx

namespace Spdx

/-- Agreement of every key with the ID field of its stored value. -/
def KeyInv {α : Type} (f : α → Str) (m : List (Str × α)) : Prop :=
  ∀ e ∈ m, f e.2 = e.1

theorem keyInv_insertA {α : Type} {f : α → Str} {m : List (Str × α)}
    (h : KeyInv f m) {k : Str} {v : α} (hv : f v = k) : KeyInv f (insertA m k v) := by
  intro e he
  rcases mem_insertA he with h' | h'
  · subst h'; exact hv
  · exact h e h'

theorem keyInv_lookup {α : Type} {f : α → Str} {m : List (Str × α)} {k : Str} {v : α}
    (h : KeyInv f m) (hl : lookupA m k = some v) : f v = k :=
  h (k, v) (lookupA_mem hl)

theorem pass1Step_keyInv_classes (m : Model) (e : Str × RDFNode)
    (h : KeyInv (fun c => c.ID) m.Classes) :
    KeyInv (fun c => c.ID) (pass1Step m e).Classes := by
  simp only [pass1Step]
  repeat' split
  all_goals first
    | exact h
    | exact keyInv_insertA h (parseClass_ID _ _)

theorem pass1Step_keyInv_props (m : Model) (e : Str × RDFNode)
    (h : KeyInv (fun p => p.ID) m.Properties) :
    KeyInv (fun p => p.ID) (pass1Step m e).Properties := by
  simp only [pass1Step]
  repeat' split
  all_goals first
    | exact h
    | exact keyInv_insertA h (parseProperty_ID _ _ _)
    | exact keyInv_insertA (keyInv_insertA h (parseProperty_ID _ _ _)) (parseProperty_ID _ _ _)

theorem pass1Step_uniq_classes (m : Model) (e : Str × RDFNode)
    (h : UniqKeys m.Classes) : UniqKeys (pass1Step m e).Classes := by
  simp only [pass1Step]
  repeat' split
  all_goals first
    | exact h
    | exact uniqKeys_insertA h _ _

theorem pass1Step_uniq_props (m : Model) (e : Str × RDFNode)
    (h : UniqKeys m.Properties) : UniqKeys (pass1Step m e).Properties := by
  simp only [pass1Step]
  repeat' split
  all_goals first
    | exact h
    | exact uniqKeys_insertA h _ _
    | exact uniqKeys_insertA (uniqKeys_insertA h _ _) _ _

theorem enumLoop_keyInv (allNodes : List (Str × RDFNode)) (classes : List (Str × Class))
    (id : Str) (node : RDFNode) :
    ∀ (ts : List Str) (enums : List (Str × Enum)), KeyInv (fun e => e.ID) enums →
      KeyInv (fun e => e.ID) (enumLoop allNodes classes id node enums ts) := by
  intro ts
  induction ts with
  | nil => intro enums h; exact h
  | cons t rest ih =>
    intro enums h
    simp only [enumLoop]
    split
    · split
      · next e0 he =>
          have hv : e0.ID = t := keyInv_lookup h he
          apply keyInv_insertA h
          exact hv
      · split
        · split
          · have hv : (newEnum allNodes t).ID = t := newEnum_ID _ _
            apply keyInv_insertA h
            exact hv
          · exact ih enums h
        · have hv : (newEnum allNodes t).ID = t := newEnum_ID _ _
          apply keyInv_insertA h
          exact hv
    · exact ih enums h

/-- The §4.4 disambiguation invariant, relative to a fixed classes table:
every enum key either has no class or a class with empty Parent. -/
def EnumClassInv (classes : List (Str × Class)) (enums : List (Str × Enum)) : Prop :=
  ∀ k e c, lookupA enums k = some e → lookupA classes k = some c → c.Parent = []

theorem enumClassInv_insert_existing {classes : List (Str × Class)}
    {enums : List (Str × Enum)} {t : Str} {e0 : Enum} (v : Enum)
    (he : lookupA enums t = some e0) (h : EnumClassInv classes enums) :
    EnumClassInv classes (insertA enums t v) := by
  intro k e c hl hc
  by_cases hk : k = t
  · subst hk; exact h k e0 c he hc
  · rw [lookupA_insertA_ne _ _ _ _ (fun hh => hk hh.symm)] at hl
    exact h k e c hl hc

theorem enumClassInv_insert_new {classes : List (Str × Class)}
    {enums : List (Str × Enum)} {t : Str} (v : Enum)
    (hc : lookupA classes t = none ∨ ∃ c, lookupA classes t = some c ∧ c.Parent = [])
    (h : EnumClassInv classes enums) : EnumClassInv classes (insertA enums t v) := by
  intro k e c hl hcl
  by_cases hk : k = t
  · subst hk
    rcases hc with hc | ⟨c', hc', hp⟩
    · rw [hc] at hcl; cases hcl
    · rw [hc'] at hcl
      cases hcl
      exact hp
  · rw [lookupA_insertA_ne _ _ _ _ (fun hh => hk hh.symm)] at hl
    exact h k e c hl hcl

theorem enumLoop_enumClassInv (allNodes : List (Str × RDFNode))
    (classes : List (Str × Class)) (id : Str) (node : RDFNode) :
    ∀ (ts : List Str) (enums : List (Str × Enum)), EnumClassInv classes enums →
      EnumClassInv classes (enumLoop allNodes classes id node enums ts) := by
  intro ts
  induction ts with
  | nil => intro enums h; exact h
  | cons t rest ih =>
    intro enums h
    simp only [enumLoop]
    split
    · split
      · next e0 he => exact enumClassInv_insert_existing _ he h
      · split
        · next c hc =>
          split
          · next hp => exact enumClassInv_insert_new _ (Or.inr ⟨c, hc, hp⟩) h
          · exact ih enums h
        · next hc => exact enumClassInv_insert_new _ (Or.inl hc) h
    · exact ih enums h

theorem pass2Step_enumClassInv (allNodes : List (Str × RDFNode))
    (classes : List (Str × Class)) (enums : List (Str × Enum)) (e : Str × RDFNode)
    (h : EnumClassInv classes enums) :
    EnumClassInv classes (pass2Step allNodes classes enums e) := by
  simp only [pass2Step]
  split
  · exact enumLoop_enumClassInv _ _ _ _ _ _ h
  · exact h

theorem pass2Step_keyInv (allNodes : List (Str × RDFNode))
    (classes : List (Str × Class)) (enums : List (Str × Enum)) (e : Str × RDFNode)
    (h : KeyInv (fun en => en.ID) enums) :
    KeyInv (fun en => en.ID) (pass2Step allNodes classes enums e) := by
  simp only [pass2Step]
  split
  · exact enumLoop_keyInv _ _ _ _ _ _ h
  · exact h

/-- The model after the first pass. -/
def stage1 (ns : List RDFNode) : Model :=
  (indexNodes ns).nodes.foldl pass1Step
    { SpecVersion := [], Classes := [], Properties := [], Enums := [] }

/-- The enum table after the second pass. -/
def stage2Enums (ns : List RDFNode) : List (Str × Enum) :=
  (indexNodes ns).nodes.foldl (pass2Step (indexNodes ns).nodes (stage1 ns).Classes)
    (stage1 ns).Enums

/-- The class table after the third pass. -/
def stage3Classes (ns : List RDFNode) : List (Str × Class) :=
  (indexNodes ns).nodes.foldl (pass3Step (indexNodes ns).blankNodes) (stage1 ns).Classes

theorem extractModel_Classes (ns : List RDFNode) :
    (extractModel ns).Classes = stage3Classes ns := rfl

theorem extractModel_Enums (ns : List RDFNode) :
    (extractModel ns).Enums = stage2Enums ns := rfl

theorem extractModel_Properties (ns : List RDFNode) :
    (extractModel ns).Properties = (stage1 ns).Properties := rfl

theorem stage1_Enums (ns : List RDFNode) : (stage1 ns).Enums = [] := by
  refine @foldl_inv Model (Str × RDFNode) (fun m => m.Enums = []) pass1Step _ _ rfl ?_
  intro b e _ hb
  rw [pass1Step_Enums]
  exact hb

theorem indexNodes_uniq (ns : List RDFNode) :
    UniqKeys (indexNodes ns).nodes ∧ UniqKeys (indexNodes ns).blankNodes := by
  refine @foldl_inv GraphIndex RDFNode
    (fun st => UniqKeys st.nodes ∧ UniqKeys st.blankNodes) indexStep _ _
    ⟨List.Pairwise.nil, List.Pairwise.nil⟩ ?_
  intro st e _ h
  simp only [indexStep]
  repeat' split
  all_goals first
    | exact h
    | exact ⟨h.1, uniqKeys_insertA h.2 _ _⟩
    | exact ⟨uniqKeys_insertA h.1 _ _, h.2⟩

theorem stage1_uniq (ns : List RDFNode) :
    UniqKeys (stage1 ns).Classes ∧ UniqKeys (stage1 ns).Properties := by
  refine @foldl_inv Model (Str × RDFNode)
    (fun m => UniqKeys m.Classes ∧ UniqKeys m.Properties) pass1Step _ _
    ⟨List.Pairwise.nil, List.Pairwise.nil⟩ ?_
  intro b e _ h
  exact ⟨pass1Step_uniq_classes _ _ h.1, pass1Step_uniq_props _ _ h.2⟩

theorem stage1_keyInv (ns : List RDFNode) :
    KeyInv (fun c => c.ID) (stage1 ns).Classes ∧
      KeyInv (fun p => p.ID) (stage1 ns).Properties := by
  refine @foldl_inv Model (Str × RDFNode)
    (fun m => KeyInv (fun c => c.ID) m.Classes ∧ KeyInv (fun p => p.ID) m.Properties)
    pass1Step (indexNodes ns).nodes
    { SpecVersion := [], Classes := [], Properties := [], Enums := [] }
    ⟨fun e he => absurd he (List.not_mem_nil e), fun e he => absurd he (List.not_mem_nil e)⟩ ?_
  intro b e _ h
  exact ⟨pass1Step_keyInv_classes _ _ h.1, pass1Step_keyInv_props _ _ h.2⟩

theorem stage2Enums_enumClassInv (ns : List RDFNode) :
    EnumClassInv (stage1 ns).Classes (stage2Enums ns) := by
  refine @foldl_inv (List (Str × Enum)) (Str × RDFNode)
    (EnumClassInv (stage1 ns).Classes)
    (pass2Step (indexNodes ns).nodes (stage1 ns).Classes) _ _ ?_ ?_
  · rw [stage1_Enums]
    intro k e c hl _
    simp [lookupA] at hl
  · intro b e _ h
    exact pass2Step_enumClassInv _ _ _ _ h

theorem stage2Enums_keyInv (ns : List RDFNode) :
    KeyInv (fun en => en.ID) (stage2Enums ns) := by
  refine @foldl_inv (List (Str × Enum)) (Str × RDFNode)
    (KeyInv (fun en => en.ID))
    (pass2Step (indexNodes ns).nodes (stage1 ns).Classes) _ _ ?_ ?_
  · rw [stage1_Enums]
    exact fun e he => absurd he (List.not_mem_nil e)
  · intro b e _ h
    exact pass2Step_keyInv _ _ _ _ h

end Spdx

namespace Spdx

theorem pass3Step_keyInv (blanks : List (Str × RDFNode)) (classes : List (Str × Class))
    (e : Str × RDFNode) (h : KeyInv (fun c => c.ID) classes) :
    KeyInv (fun c => c.ID) (pass3Step blanks classes e) := by
  simp only [pass3Step]
  split
  · split
    · exact h
    · next c hc =>
      have hv : (applyShape blanks c e.2).ID = e.1 := by
        rw [applyShape_ID]
        exact keyInv_lookup h hc
      exact keyInv_insertA h hv
  · exact h

theorem stage3_keyInv (ns : List RDFNode) :
    KeyInv (fun c => c.ID) (stage3Classes ns) := by
  refine @foldl_inv (List (Str × Class)) (Str × RDFNode)
    (KeyInv (fun c => c.ID)) (pass3Step (indexNodes ns).blankNodes)
    (indexNodes ns).nodes (stage1 ns).Classes (stage1_keyInv ns).1 ?_
  intro b e _ h
  exact pass3Step_keyInv _ _ _ h

/-- Concrete node: an owl:Class declaration for the HashAlgorithm IRI. -/
def c1ClassNode : RDFNode :=
  [ ("@id".toList, .str "https://spdx.org/rdf/3.0.1/terms/Core/HashAlgorithm".toList),
    ("@type".toList, .arr [.str owlClass]) ]

/-- Concrete node: a named individual typed by the HashAlgorithm IRI. -/
def c1IndivNode : RDFNode :=
  [ ("@id".toList, .str "https://spdx.org/rdf/3.0.1/terms/Core/HashAlgorithm/sha256".toList),
    ("@type".toList,
      .arr [.str owlNamedIndividual,
            .str "https://spdx.org/rdf/3.0.1/terms/Core/HashAlgorithm".toList]) ]

/-- Concrete input with an IRI that is simultaneously a class (no parent) and
an enum type. -/
def c1Nodes : List RDFNode := [c1ClassNode, c1IndivNode]

/-- The HashAlgorithm IRI of the concrete input. -/
def hashAlgIRI : Str := "https://spdx.org/rdf/3.0.1/terms/Core/HashAlgorithm".toList

/-- C1: for every successful extraction, no IRI is simultaneously a key of
Model.Enums and the ID of a class in Model.Classes whose Parent is non-empty;
pass 2 creates an enum under a type IRI only after checking that the classes
table holds no class with a non-empty Parent under it, and pass 3 never
changes the Parent of any class. -/
theorem extract_enum_not_subclassed (ns : List RDFNode) (k : Str) (e : Enum) (c : Class)
    (he : lookupA (extractModel ns).Enums k = some e)
    (hc : lookupA (extractModel ns).Classes k = some c) :
    c.Parent = [] := by
  rw [extractModel_Enums] at he
  rw [extractModel_Classes] at hc
  have hfold : stage3Classes ns =
      (indexNodes ns).nodes.foldl (pass3Step (indexNodes ns).blankNodes) (stage1 ns).Classes := rfl
  rw [hfold] at hc
  have hpar := pass3_fold_Parent (indexNodes ns).blankNodes (indexNodes ns).nodes
    (stage1 ns).Classes k
  rw [hc] at hpar
  cases hc1 : lookupA (stage1 ns).Classes k with
  | none => rw [hc1] at hpar; simp at hpar
  | some c1 =>
    rw [hc1] at hpar
    simp only [Option.map_some'] at hpar
    have hp : c.Parent = c1.Parent := Option.some.inj hpar
    rw [hp]
    exact stage2Enums_enumClassInv ns k e c1 he hc1

/-- The enum that the concrete input c1Nodes produces for HashAlgorithm. -/
def c1ExpectedEnum : Enum :=
  { ID := hashAlgIRI, Name := "HashAlgorithm".toList, Comment := [],
    Values := [{ ID := "https://spdx.org/rdf/3.0.1/terms/Core/HashAlgorithm/sha256".toList,
                 Name := "sha256".toList, Label := [], Comment := [] }],
    Namespace := "Core".toList }

/-- Witness for C1 at a concrete extraction in which the HashAlgorithm IRI is
both an enum key and a class key. -/
theorem extract_enum_not_subclassed_witness :
    lookupA (extractModel c1Nodes).Enums hashAlgIRI = some c1ExpectedEnum ∧
    lookupA (extractModel c1Nodes).Classes hashAlgIRI = some (parseClass hashAlgIRI c1ClassNode) ∧
    (parseClass hashAlgIRI c1ClassNode).Parent = [] := by
  have he : lookupA (extractModel c1Nodes).Enums hashAlgIRI = some c1ExpectedEnum := by decide
  have hc : lookupA (extractModel c1Nodes).Classes hashAlgIRI =
      some (parseClass hashAlgIRI c1ClassNode) := by decide
  exact ⟨he, hc, extract_enum_not_subclassed c1Nodes hashAlgIRI _ _ he hc⟩

/-- C5: in every extracted Model, every key of the Classes, Properties and
Enums tables equals the ID field of the value stored under it. -/
theorem model_keys_eq_id (ns : List RDFNode) :
    (∀ e ∈ (extractModel ns).Classes, e.2.ID = e.1) ∧
    (∀ e ∈ (extractModel ns).Properties, e.2.ID = e.1) ∧
    (∀ e ∈ (extractModel ns).Enums, e.2.ID = e.1) := by
  refine ⟨?_, ?_, ?_⟩
  · rw [extractModel_Classes]
    exact stage3_keyInv ns
  · rw [extractModel_Properties]
    exact (stage1_keyInv ns).2
  · rw [extractModel_Enums]
    exact stage2Enums_keyInv ns

/-- Witness for C5 on the concrete extraction of c1Nodes. -/
theorem model_keys_eq_id_witness :
    (parseClass hashAlgIRI c1ClassNode).ID = hashAlgIRI :=
  (model_keys_eq_id c1Nodes).1 (hashAlgIRI, parseClass hashAlgIRI c1ClassNode) (by decide)

end Spdx

namespace Spdx

theorem collectRefs_append (blanks : List (Str × RDFNode)) (l1 l2 : List JSON) :
    collectRefs blanks (l1 ++ l2) = collectRefs blanks l1 ++ collectRefs blanks l2 := by
  induction l1 with
  | nil => rfl
  | cons raw rest ih => simp [collectRefs, ih]

/-- The claim hypothesis: the property-shape node carries a message statement
whose decoded literal contains the marker word in some letter case. -/
def hasAbstractMsg (b : RDFNode) : Prop :=
  ∃ m rest s, getArray b shaclMessage = m :: rest ∧ unmarshalValueStr m = some s ∧
    containsSub (toLowerStr s) "abstract".toList = true

theorem hasAbstractMsg_marker {b : RDFNode} (h : hasAbstractMsg b) :
    isAbstractMarker b = true := by
  obtain ⟨m, rest, s, h1, h2, h3⟩ := h
  simp only [isAbstractMarker, h1, h2]
  exact h3

/-- The IRI of the concrete abstract-marked class. -/
def absIRI : Str := "https://spdx.org/rdf/3.0.1/terms/Core/Element".toList

/-- Concrete blank node carrying an abstract-class marker message. -/
def c2MarkerBlank : RDFNode :=
  [ ("@id".toList, .str "_:a0".toList),
    (shaclMessage,
      .arr [.obj [("@value".toList,
        .str "This class is Abstract and cannot be instantiated directly".toList)]]) ]

/-- The sh:property entry referencing the marker blank node. -/
def c2Raw : JSON := .obj [("@id".toList, .str "_:a0".toList)]

/-- Concrete class node that is also a node shape with one marker entry. -/
def c2ShapeNode : RDFNode :=
  [ ("@id".toList, .str absIRI),
    ("@type".toList, .arr [.str owlClass, .str shaclNodeShape]),
    (shaclProperty, .arr [c2Raw]) ]

/-- Concrete input for the abstract-marker scenario. -/
def c2Nodes : List RDFNode := [c2ShapeNode, c2MarkerBlank]

/-- The class c2Nodes extracts: abstract, with no properties. -/
def c2ExpectedClass : Class :=
  { ID := absIRI, Name := "Element".toList, Comment := [], Parent := [],
    Properties := [], IsAbstract := true, NodeKind := [], Namespace := "Core".toList }

/-- C2: a property-shape blank node whose message contains "abstract" in any
letter case sets IsAbstract on the referencing class, contributes no
PropertyRef (the property list of the third pass is the same as if the entry
were absent), and a repeated marker entry is idempotent; consequently after
extraction the class stored for a shape with such an entry has
IsAbstract = true. -/
theorem abstract_marker_semantics :
    (∀ (blanks : List (Str × RDFNode)) (c : Class) (raw : JSON) (b : RDFNode)
        (es₁ es₂ : List JSON),
      resolveShapeEntry blanks raw = some b →
      hasAbstractMsg b →
      ((es₁ ++ raw :: es₂).foldl (shapeStep blanks) c).IsAbstract = true ∧
      ((es₁ ++ raw :: es₂).foldl (shapeStep blanks) c).Properties =
        ((es₁ ++ es₂).foldl (shapeStep blanks) c).Properties ∧
      (es₁ ++ raw :: raw :: es₂).foldl (shapeStep blanks) c =
        (es₁ ++ raw :: es₂).foldl (shapeStep blanks) c) ∧
    (∀ (ns : List RDFNode) (X : Str) (nodeX : RDFNode) (raw : JSON) (b : RDFNode) (c : Class),
      lookupA (indexNodes ns).nodes X = some nodeX →
      containsType (getTypes nodeX) shaclNodeShape = true →
      raw ∈ getArray nodeX shaclProperty →
      resolveShapeEntry (indexNodes ns).blankNodes raw = some b →
      hasAbstractMsg b →
      lookupA (extractModel ns).Classes X = some c →
      c.IsAbstract = true) := by
  constructor
  · intro blanks c raw b es₁ es₂ hres habs
    have hm : isAbstractMarker b = true := hasAbstractMsg_marker habs
    have href : entryRef blanks raw = [] := by simp [entryRef, hres, hm]
    have hmark : entryMarks blanks raw = true := by simp [entryMarks, hres, hm]
    refine ⟨?_, ?_, ?_⟩
    · rw [shapeFold_eq]
      simp [anyMarker, List.any_append, List.any_cons, hmark]
    · rw [shapeFold_eq, shapeFold_eq]
      simp [collectRefs_append, collectRefs, href]
    · rw [shapeFold_eq, shapeFold_eq]
      simp [collectRefs_append, collectRefs, href, anyMarker,
        List.any_append, List.any_cons, hmark]
  · intro ns X nodeX raw b c hlk hshape hmem hres habs hc
    have hm : isAbstractMarker b = true := hasAbstractMsg_marker habs
    have hmark : entryMarks (indexNodes ns).blankNodes raw = true := by
      simp [entryMarks, hres, hm]
    rw [extractModel_Classes] at hc
    have hfold : stage3Classes ns =
        (indexNodes ns).nodes.foldl (pass3Step (indexNodes ns).blankNodes)
          (stage1 ns).Classes := rfl
    rw [hfold] at hc
    rw [pass3_fold_processed _ _ _ _ _ (indexNodes_uniq ns).1 (lookupA_mem hlk) hshape] at hc
    cases hc1 : lookupA (stage1 ns).Classes X with
    | none => rw [hc1] at hc; cases hc
    | some c1 =>
      rw [hc1] at hc
      simp only [Option.map_some'] at hc
      have hceq : c = applyShape (indexNodes ns).blankNodes c1 nodeX :=
        (Option.some.inj hc).symm
      rw [hceq, applyShape_eq]
      have hany : anyMarker (indexNodes ns).blankNodes (getArray nodeX shaclProperty) = true :=
        List.any_eq_true.mpr ⟨raw, hmem, hmark⟩
      simp [hany]

/-- Witness for C2 at a concrete extraction: the marker message sets
IsAbstract on the extracted class and the class keeps no properties. -/
theorem abstract_marker_semantics_witness : c2ExpectedClass.IsAbstract = true := by
  have h1 : lookupA (indexNodes c2Nodes).nodes absIRI = some c2ShapeNode := rfl
  have h2 : containsType (getTypes c2ShapeNode) shaclNodeShape = true := by decide
  have h3 : c2Raw ∈ getArray c2ShapeNode shaclProperty := by
    have hga : getArray c2ShapeNode shaclProperty = [c2Raw] := rfl
    rw [hga]
    exact List.mem_singleton.mpr rfl
  have h4 : resolveShapeEntry (indexNodes c2Nodes).blankNodes c2Raw = some c2MarkerBlank := rfl
  have h5 : hasAbstractMsg c2MarkerBlank :=
    ⟨.obj [("@value".toList,
        .str "This class is Abstract and cannot be instantiated directly".toList)], [],
      "This class is Abstract and cannot be instantiated directly".toList,
      rfl, rfl, by decide⟩
  have h6 : lookupA (extractModel c2Nodes).Classes absIRI = some c2ExpectedClass := by decide
  exact abstract_marker_semantics.2 c2Nodes absIRI c2ShapeNode c2Raw c2MarkerBlank
    c2ExpectedClass h1 h2 h3 h4 h5 h6

end Spdx

namespace Spdx

theorem prSetPath_MaxCount (node : RDFNode) (pr : PropertyRef) :
    (prSetPath node pr).MaxCount = pr.MaxCount := by
  unfold prSetPath
  repeat' split
  all_goals rfl

theorem prSetDatatype_MaxCount (node : RDFNode) (pr : PropertyRef) :
    (prSetDatatype node pr).MaxCount = pr.MaxCount := by
  unfold prSetDatatype
  repeat' split
  all_goals rfl

theorem prSetClassRef_MaxCount (node : RDFNode) (pr : PropertyRef) :
    (prSetClassRef node pr).MaxCount = pr.MaxCount := by
  unfold prSetClassRef
  repeat' split
  all_goals rfl

theorem prSetMinCount_MaxCount (node : RDFNode) (pr : PropertyRef) :
    (prSetMinCount node pr).MaxCount = pr.MaxCount := by
  unfold prSetMinCount
  repeat' split
  all_goals rfl

theorem prSetNodeKind_MaxCount (node : RDFNode) (pr : PropertyRef) :
    (prSetNodeKind node pr).MaxCount = pr.MaxCount := by
  unfold prSetNodeKind
  repeat' split
  all_goals rfl

theorem prSetIn_MaxCount (node : RDFNode) (pr : PropertyRef) :
    (prSetIn node pr).MaxCount = pr.MaxCount := by
  unfold prSetIn
  repeat' split
  all_goals rfl

theorem prSetPath_nil (node : RDFNode) (pr : PropertyRef)
    (h : getArray node shaclPath = []) : prSetPath node pr = pr := by
  unfold prSetPath
  rw [h]

theorem prSetDatatype_nil (node : RDFNode) (pr : PropertyRef)
    (h : getArray node shaclDatatype = []) : prSetDatatype node pr = pr := by
  unfold prSetDatatype
  rw [h]

theorem prSetClassRef_nil (node : RDFNode) (pr : PropertyRef)
    (h : getArray node shaclClass = []) : prSetClassRef node pr = pr := by
  unfold prSetClassRef
  rw [h]

theorem prSetMinCount_nil (node : RDFNode) (pr : PropertyRef)
    (h : getArray node shaclMinCount = []) : prSetMinCount node pr = pr := by
  unfold prSetMinCount
  rw [h]

theorem prSetMaxCount_nil (node : RDFNode) (pr : PropertyRef)
    (h : getArray node shaclMaxCount = []) : prSetMaxCount node pr = pr := by
  unfold prSetMaxCount
  rw [h]

theorem prSetNodeKind_nil (node : RDFNode) (pr : PropertyRef)
    (h : getArray node shaclNodeKind = []) : prSetNodeKind node pr = pr := by
  unfold prSetNodeKind
  rw [h]

theorem prSetIn_nil (node : RDFNode) (pr : PropertyRef)
    (h : getArray node shaclIn = []) : prSetIn node pr = pr := by
  unfold prSetIn
  rw [h]

/-- The value of the first sh:maxCount entry: the -1 sentinel when the entry
is absent or undecodable, the decoded literal otherwise. -/
def maxCountOf (node : RDFNode) : Int :=
  match getArray node shaclMaxCount with
  | [] => -1
  | r :: _ =>
    match unmarshalValueInt r with
    | some v => v
    | none => -1

/-- The MaxCount of a parsed property shape is decided solely by the first
sh:maxCount entry. -/
theorem parsePropertyRef_MaxCount (node : RDFNode) :
    (parsePropertyRef node).MaxCount = maxCountOf node := by
  unfold parsePropertyRef
  rw [prSetIn_MaxCount, prSetNodeKind_MaxCount]
  have hX : (prSetMinCount node (prSetClassRef node (prSetDatatype node
      (prSetPath node initPropertyRef)))).MaxCount = -1 := by
    rw [prSetMinCount_MaxCount, prSetClassRef_MaxCount, prSetDatatype_MaxCount,
      prSetPath_MaxCount]
    rfl
  unfold prSetMaxCount maxCountOf
  split
  · exact hX
  · split
    · rfl
    · exact hX

/-- The IRI of the class in the negative-maxCount scenario. -/
def c3IRI : Str := "https://spdx.org/rdf/3.0.1/terms/Core/Thing".toList

/-- Blank node carrying an explicit negative sh:maxCount literal. -/
def c3Blank : RDFNode :=
  [ ("@id".toList, .str "_:m0".toList),
    (shaclMaxCount, .arr [.obj [("@value".toList, .num (-5))]]) ]

/-- Class-and-shape node referencing that blank node. -/
def c3ShapeNode : RDFNode :=
  [ ("@id".toList, .str c3IRI),
    ("@type".toList, .arr [.str owlClass, .str shaclNodeShape]),
    (shaclProperty, .arr [.obj [("@id".toList, .str "_:m0".toList)]]) ]

/-- Concrete input whose extraction carries a PropertyRef with MaxCount -5. -/
def c3Nodes : List RDFNode := [c3ShapeNode, c3Blank]

/-- Counterexample to C3 as stated: an extracted Model whose only PropertyRef
has the negative MaxCount -5, which is neither -1 nor the only negative value
the claim permits — an explicit negative literal passes straight through. -/
theorem maxCount_negative_passthrough :
    (lookupA (extractModel c3Nodes).Classes c3IRI).map
        (fun c => c.Properties.map (fun pr => pr.MaxCount)) = some [-5] ∧
      ((-5 : Int) < 0 ∧ (-5 : Int) ≠ -1) := by
  constructor
  · decide
  · decide

/-- C3 as amended: MaxCount is -1 exactly when the shape has no decodable
maxCount literal, and equals the decoded literal otherwise (so {@value: 1}
yields 1); hence a negative MaxCount other than -1 can only arise from an
explicit negative literal in the input. -/
theorem maxCount_characterization (node : RDFNode) :
    (getArray node shaclMaxCount = [] → (parsePropertyRef node).MaxCount = -1) ∧
    (∀ r rest v, getArray node shaclMaxCount = r :: rest →
      unmarshalValueInt r = some v → (parsePropertyRef node).MaxCount = v) ∧
    (∀ r rest, getArray node shaclMaxCount = r :: rest →
      unmarshalValueInt r = none → (parsePropertyRef node).MaxCount = -1) ∧
    ((parsePropertyRef node).MaxCount ≠ -1 →
      ∃ r rest v, getArray node shaclMaxCount = r :: rest ∧
        unmarshalValueInt r = some v ∧ (parsePropertyRef node).MaxCount = v) := by
  refine ⟨?_, ?_, ?_, ?_⟩
  · intro h
    rw [parsePropertyRef_MaxCount]
    simp [maxCountOf, h]
  · intro r rest v h1 h2
    rw [parsePropertyRef_MaxCount]
    simp [maxCountOf, h1, h2]
  · intro r rest h1 h2
    rw [parsePropertyRef_MaxCount]
    simp [maxCountOf, h1, h2]
  · intro hne
    cases h1 : getArray node shaclMaxCount with
    | nil =>
      exact absurd (by rw [parsePropertyRef_MaxCount]; simp [maxCountOf, h1]) hne
    | cons r rest =>
      cases h2 : unmarshalValueInt r with
      | none =>
        exact absurd (by rw [parsePropertyRef_MaxCount]; simp [maxCountOf, h1, h2]) hne
      | some v =>
        exact ⟨r, rest, v, rfl, h2,
          by rw [parsePropertyRef_MaxCount]; simp [maxCountOf, h1, h2]⟩

/-- Shape node carrying the explicit literal of the claim's example. -/
def c3WitnessNode : RDFNode :=
  [ (shaclMaxCount, .arr [.obj [("@value".toList, .num 1)]]) ]

/-- Witness for the amended C3 at the claim's own example literal. -/
theorem maxCount_characterization_witness :
    (parsePropertyRef c3WitnessNode).MaxCount = 1 :=
  (maxCount_characterization c3WitnessNode).2.1
    (.obj [("@value".toList, .num 1)]) [] 1 rfl rfl

/-- C10: parsePropertyRef is total (in Go it returns a non-nil pointer on
every path, so the nil-check guarding the append never skips): every resolved
non-marker entry appends exactly one PropertyRef, and a blank node with none
of the recognized SHACL statements yields the zero-initialised record with
Path, Name, DataType, ClassRef empty, MinCount 0, MaxCount -1 and no
InValues. -/
theorem parsePropertyRef_total_default :
    (∀ (blanks : List (Str × RDFNode)) (c : Class) (raw : JSON) (b : RDFNode),
      resolveShapeEntry blanks raw = some b → isAbstractMarker b = false →
      (shapeStep blanks c raw).Properties = c.Properties ++ [parsePropertyRef b]) ∧
    (∀ node : RDFNode,
      getArray node shaclPath = [] → getArray node shaclDatatype = [] →
      getArray node shaclClass = [] → getArray node shaclMinCount = [] →
      getArray node shaclMaxCount = [] → getArray node shaclNodeKind = [] →
      getArray node shaclIn = [] →
      parsePropertyRef node = initPropertyRef) ∧
    (initPropertyRef.Path = [] ∧ initPropertyRef.Name = [] ∧
      initPropertyRef.DataType = [] ∧ initPropertyRef.ClassRef = [] ∧
      initPropertyRef.MinCount = 0 ∧ initPropertyRef.MaxCount = -1 ∧
      initPropertyRef.InValues = []) := by
  refine ⟨?_, ?_, ?_⟩
  · intro blanks c raw b hres hm
    simp [shapeStep, hres, hm]
  · intro node h1 h2 h3 h4 h5 h6 h7
    unfold parsePropertyRef
    rw [prSetPath_nil _ _ h1, prSetDatatype_nil _ _ h2, prSetClassRef_nil _ _ h3,
      prSetMinCount_nil _ _ h4, prSetMaxCount_nil _ _ h5, prSetNodeKind_nil _ _ h6,
      prSetIn_nil _ _ h7]
  · exact ⟨rfl, rfl, rfl, rfl, rfl, rfl, rfl⟩

/-- Witness for C10: the empty blank node parses to the zero-initialised
PropertyRef. -/
theorem parsePropertyRef_total_default_witness :
    parsePropertyRef ([] : RDFNode) = initPropertyRef :=
  parsePropertyRef_total_default.2.1 [] rfl rfl rfl rfl rfl rfl rfl

end Spdx

namespace Spdx

theorem afterLast_of_not_mem (c : Char) (s : Str) (h : c ∉ s) :
    afterLast c s = none := by
  induction s with
  | nil => rfl
  | cons x rest ih =>
    rw [List.mem_cons, not_or] at h
    simp [afterLast, ih h.2, Ne.symm h.1]

theorem afterLast_append (c : Char) (s t : Str) (h : c ∉ t) :
    afterLast c (s ++ c :: t) = some t := by
  induction s with
  | nil => simp [afterLast, afterLast_of_not_mem c t h]
  | cons x s ih => simp [afterLast, ih]

theorem upToFirst_of_not_mem (c : Char) (s : Str) (h : c ∉ s) :
    upToFirst c s = s := by
  induction s with
  | nil => rfl
  | cons x rest ih =>
    rw [List.mem_cons, not_or] at h
    simp [upToFirst, Ne.symm h.1, ih h.2]

theorem upToFirst_append (c : Char) (s t : Str) (h : c ∉ s) :
    upToFirst c (s ++ c :: t) = s := by
  induction s with
  | nil => simp [upToFirst]
  | cons x s ih =>
    rw [List.mem_cons, not_or] at h
    simp [upToFirst, Ne.symm h.1, ih h.2]

/-- Comparison definition following the spec's words for the Name rule: the
substring after the last occurrence of either `/` or `#` (the IRI itself when
neither occurs).  The source function instead consults `#` only when the IRI
contains no `/` at all; the two disagree on IRIs with a `#` after a `/`. -/
def afterLastAny : Str → Option Str
  | [] => none
  | x :: rest =>
    match afterLastAny rest with
    | some t => some t
    | none => if x = '/' ∨ x = '#' then some rest else none

/-- Comparison definition following the spec's words for the Name rule. -/
def extractNameSpecWords (iri : Str) : Str :=
  match afterLastAny iri with
  | some t => t
  | none => iri

/-- The IRI of the counterexample: a `#` after the last `/`. -/
def c6IRI : Str := "https://x/a#b".toList

/-- Concrete class node with that IRI. -/
def c6Node : RDFNode :=
  [ ("@id".toList, .str c6IRI), ("@type".toList, .arr [.str owlClass]) ]

/-- Concrete input for the Name-rule counterexample. -/
def c6Nodes : List RDFNode := [c6Node]

/-- Counterexample to C6 as stated: for the class node with IRI
`https://x/a#b` the extracted Name is `a#b` (the suffix after the last `/`),
not `b` (the suffix after the last `/`-or-`#` that the claim's wording
prescribes). -/
theorem extractName_hash_after_slash :
    (lookupA (extractModel c6Nodes).Classes c6IRI).map (fun c => c.Name) =
        some "a#b".toList ∧
      extractNameSpecWords c6IRI = "b".toList ∧ "a#b".toList ≠ "b".toList := by
  refine ⟨by decide, by decide, by decide⟩

/-- C6 as amended: Name is the suffix after the last `/` whenever the IRI
contains a `/`; the `#` rule applies only to IRIs without any `/`; an IRI
with neither separator is returned whole.  Namespace is the path segment
immediately after the fixed schema base URI, empty outside that base.  The
concrete equalities of the claim hold. -/
theorem extractName_namespace_characterization :
    (∀ s t : Str, '/' ∉ t → extractName (s ++ '/' :: t) = t) ∧
    (∀ s t : Str, '/' ∉ s → '/' ∉ t → '#' ∉ t → extractName (s ++ '#' :: t) = t) ∧
    (∀ s : Str, '/' ∉ s → '#' ∉ s → extractName s = s) ∧
    (∀ seg rest : Str, '/' ∉ seg →
      extractNamespace (spdxBaseURI ++ (seg ++ '/' :: rest)) = seg) ∧
    (∀ seg : Str, '/' ∉ seg → extractNamespace (spdxBaseURI ++ seg) = seg) ∧
    (∀ iri : Str, spdxBaseURI.isPrefixOf iri = false → extractNamespace iri = []) ∧
    (extractName "https://spdx.org/rdf/3.0.1/terms/Core/Element".toList = "Element".toList ∧
      extractNamespace "https://spdx.org/rdf/3.0.1/terms/Core/Element".toList = "Core".toList) := by
  refine ⟨?_, ?_, ?_, ?_, ?_, ?_, by decide, by decide⟩
  · intro s t h
    simp [extractName, afterLast_append _ _ _ h]
  · intro s t hs ht ht2
    have hns : '/' ∉ s ++ '#' :: t := by
      intro hm
      rcases List.mem_append.mp hm with hm | hm
      · exact hs hm
      · rcases List.mem_cons.mp hm with hm | hm
        · exact absurd hm (by decide)
        · exact ht hm
    simp [extractName, afterLast_of_not_mem _ _ hns, afterLast_append _ _ _ ht2]
  · intro s h1 h2
    simp [extractName, afterLast_of_not_mem _ _ h1, afterLast_of_not_mem _ _ h2]
  · intro seg rest h
    have hpre : spdxBaseURI.isPrefixOf (spdxBaseURI ++ (seg ++ '/' :: rest)) = true := by
      rw [List.isPrefixOf_iff_prefix]
      exact List.prefix_append _ _
    unfold extractNamespace
    rw [if_pos hpre, List.drop_left, upToFirst_append _ _ _ h]
  · intro seg h
    have hpre : spdxBaseURI.isPrefixOf (spdxBaseURI ++ seg) = true := by
      rw [List.isPrefixOf_iff_prefix]
      exact List.prefix_append _ _
    unfold extractNamespace
    rw [if_pos hpre, List.drop_left, upToFirst_of_not_mem _ _ h]
  · intro iri h
    unfold extractNamespace
    rw [if_neg]
    simp [h]

/-- Witness for the amended C6 at a concrete split of the Element IRI. -/
theorem extractName_namespace_characterization_witness :
    extractName ("https://spdx.org/rdf/3.0.1/terms/Core".toList ++ '/' :: "Element".toList) =
      "Element".toList :=
  extractName_namespace_characterization.1 _ _ (by decide)

end Spdx

namespace Spdx

/-- The class IRI of the end-to-end scenario (outside the SPDX base URI). -/
def fooIRI : Str := "https://x/terms/Core/Foo".toList

/-- The property path IRI of the end-to-end scenario. -/
def barIRI : Str := "https://x/terms/Core/Foo/bar".toList

/-- Property-shape blank node of the end-to-end scenario: sh:path and
sh:datatype only. -/
def c7Blank : RDFNode :=
  [ ("@id".toList, .str "_:p0".toList),
    (shaclPath, .arr [.obj [("@id".toList, .str barIRI)]]),
    (shaclDatatype, .arr [.obj [("@id".toList, .str "xsd:string".toList)]]) ]

/-- The owl:Class node which is also the sh:NodeShape targeting it (the shape
targets a class by carrying the class IRI as its own @id). -/
def c7ClassShapeNode : RDFNode :=
  [ ("@id".toList, .str fooIRI),
    ("@type".toList, .arr [.str owlClass, .str shaclNodeShape]),
    (shaclProperty, .arr [.obj [("@id".toList, .str "_:p0".toList)]]) ]

/-- Concrete input of the end-to-end scenario. -/
def c7Nodes : List RDFNode := [c7ClassShapeNode, c7Blank]

/-- Counterexample to C7 as stated: for the IRI https://x/terms/Core/Foo the
extracted Namespace is empty, because the IRI lies outside the fixed schema
base URI https://spdx.org/rdf/3.0.1/terms/ — not "Core" as the claim
expects. -/
theorem end_to_end_namespace_empty :
    (lookupA (extractModel c7Nodes).Classes fooIRI).map (fun c => c.Namespace) =
        some [] ∧
      ([] : Str) ≠ "Core".toList := by
  refine ⟨by decide, by decide⟩

/-- C7 as amended: the scenario yields exactly one Class, named "Foo", with
empty Namespace (the IRI is outside the fixed schema base), carrying exactly
one PropertyRef with Name "bar", DataType "xsd:string", MinCount 0 and
MaxCount -1; no Property or Enum entries arise. -/
theorem end_to_end_foo_bar :
    (extractModel c7Nodes).Classes =
      [(fooIRI,
        { ID := fooIRI, Name := "Foo".toList, Comment := [], Parent := [],
          Properties := [{ Path := barIRI, Name := "bar".toList,
                           DataType := "xsd:string".toList, MinCount := 0,
                           MaxCount := -1, NodeKind := [], ClassRef := [],
                           InValues := [] }],
          IsAbstract := false, NodeKind := [], Namespace := [] })] ∧
    (extractModel c7Nodes).Properties = [] ∧ (extractModel c7Nodes).Enums = [] := by
  refine ⟨by decide, by decide, by decide⟩

/-- The `@id` string of a node, as read by the indexing loop. -/
def nodeId (node : RDFNode) : Str := getString node "@id".toList

/-- The last node of the input array whose `@id` equals the given id. -/
def lastWithId (ns : List RDFNode) (id : Str) : Option RDFNode :=
  (ns.filter (fun n => decide (nodeId n = id))).getLast?

/-- C8: among duplicate `@id` nodes, the index stores exactly the last one in
array order — each table lookup returns the last node of the input whose
`@id` equals the key (named IRIs and blank labels in their own tables); the
three passes read nodes only through this index, so earlier duplicates
contribute nothing. -/
theorem index_last_wins (ns : List RDFNode) (id : Str) :
    (id ≠ [] → "_:".toList.isPrefixOf id = false →
      lookupA (indexNodes ns).nodes id = lastWithId ns id) ∧
    (id ≠ [] → "_:".toList.isPrefixOf id = true →
      lookupA (indexNodes ns).blankNodes id = lastWithId ns id) := by
  induction ns using List.reverseRecOn with
  | nil => exact ⟨fun _ _ => rfl, fun _ _ => rfl⟩
  | append_singleton ns n ih =>
    have hidx : indexNodes (ns ++ [n]) = indexStep (indexNodes ns) n := by
      unfold indexNodes
      rw [List.foldl_append]
      rfl
    have hfil : lastWithId (ns ++ [n]) id =
        if nodeId n = id then some n else lastWithId ns id := by
      unfold lastWithId
      rw [List.filter_append]
      by_cases hn : nodeId n = id
      · simp [hn]
      · simp [hn]
    constructor
    · intro h1 h2
      rw [hidx, hfil]
      by_cases hn : nodeId n = id
      · have hI : getString n ("@id".toList) = id := hn
        rw [if_pos hn]
        simp only [indexStep, hI]
        rw [if_neg h1, if_neg (by rw [h2]; exact Bool.false_ne_true)]
        exact lookupA_insertA_self _ _ _
      · rw [if_neg hn]
        have hstep : lookupA (indexStep (indexNodes ns) n).nodes id =
            lookupA (indexNodes ns).nodes id := by
          simp only [indexStep]
          split
          · rfl
          · split
            · rfl
            · exact lookupA_insertA_ne _ _ _ _ (fun hh => hn hh)
        rw [hstep]
        exact ih.1 h1 h2
    · intro h1 h2
      rw [hidx, hfil]
      by_cases hn : nodeId n = id
      · have hI : getString n ("@id".toList) = id := hn
        rw [if_pos hn]
        simp only [indexStep, hI]
        rw [if_neg h1, if_pos h2]
        exact lookupA_insertA_self _ _ _
      · rw [if_neg hn]
        have hstep : lookupA (indexStep (indexNodes ns) n).blankNodes id =
            lookupA (indexNodes ns).blankNodes id := by
          simp only [indexStep]
          split
          · rfl
          · split
            · exact lookupA_insertA_ne _ _ _ _ (fun hh => hn hh)
            · rfl
        rw [hstep]
        exact ih.2 h1 h2

/-- First duplicate node of the C8 witness input. -/
def c8NodeA : RDFNode :=
  [ ("@id".toList, .str "https://e/x".toList), ("v".toList, .num 1) ]

/-- Second duplicate node of the C8 witness input. -/
def c8NodeB : RDFNode :=
  [ ("@id".toList, .str "https://e/x".toList), ("v".toList, .num 2) ]

/-- Witness for C8: with two nodes sharing an `@id`, the index lookup is the
last of the two. -/
theorem index_last_wins_witness :
    lookupA (indexNodes [c8NodeA, c8NodeB]).nodes "https://e/x".toList =
        lastWithId [c8NodeA, c8NodeB] "https://e/x".toList ∧
      lastWithId [c8NodeA, c8NodeB] "https://e/x".toList = some c8NodeB :=
  ⟨(index_last_wins [c8NodeA, c8NodeB] "https://e/x".toList).1 (by decide) (by decide),
   rfl⟩

end Spdx

namespace Spdx

theorem count_key_of_uniq {α : Type} {m : List (Str × α)} {k : Str} {v : α}
    (hu : UniqKeys m) (hl : lookupA m k = some v) :
    (m.filter (fun kv => decide (kv.1 = k))).length = 1 := by
  induction m with
  | nil => simp [lookupA] at hl
  | cons hd tl ih =>
    obtain ⟨a, b⟩ := hd
    rw [UniqKeys, List.pairwise_cons] at hu
    by_cases ha : a = k
    · subst ha
      have hnil : tl.filter (fun kv => decide (kv.1 = a)) = [] := by
        rw [List.filter_eq_nil_iff]
        intro e he
        simp only [decide_eq_true_eq]
        exact fun hh => (hu.1 e he) hh.symm
      simp [List.filter_cons, hnil]
    · rw [lookupA, if_neg ha] at hl
      have := ih hu.2 hl
      simp [List.filter_cons, ha, this]

/-- C9: a node typed as both owl:ObjectProperty and owl:DatatypeProperty
yields exactly one Property under its IRI, and that Property is the
datatype-property parse (IsObject = false), because the datatype branch runs
after the object branch and overwrites the same map key. -/
theorem dual_property_datatype_wins (ns : List RDFNode) (id : Str) (node : RDFNode)
    (hl : lookupA (indexNodes ns).nodes id = some node)
    (ho : containsType (getTypes node) owlObjectProperty = true)
    (hd : containsType (getTypes node) owlDatatypeProperty = true) :
    lookupA (extractModel ns).Properties id = some (parseProperty id node false) ∧
    (parseProperty id node false).IsObject = false ∧
    ((extractModel ns).Properties.filter (fun kv => decide (kv.1 = id))).length = 1 := by
  have hmem := lookupA_mem hl
  have hprops : lookupA (extractModel ns).Properties id =
      some (parseProperty id node false) := by
    rw [extractModel_Properties]
    exact pass1_fold_props_processed _ _ _ _ (indexNodes_uniq ns).1 hmem hd
  refine ⟨hprops, parseProperty_IsObject _ _ _, ?_⟩
  refine count_key_of_uniq ?_ hprops
  rw [extractModel_Properties]
  exact (stage1_uniq ns).2

/-- Concrete node typed both ways for the C9 witness. -/
def c9Node : RDFNode :=
  [ ("@id".toList, .str "https://e/p".toList),
    ("@type".toList, .arr [.str owlObjectProperty, .str owlDatatypeProperty]) ]

/-- Witness for C9 on the concrete dual-typed node. -/
theorem dual_property_datatype_wins_witness :
    lookupA (extractModel [c9Node]).Properties "https://e/p".toList =
      some (parseProperty "https://e/p".toList c9Node false) :=
  (dual_property_datatype_wins [c9Node] "https://e/p".toList c9Node rfl
    (by decide) (by decide)).1

theorem classSetParent_nil (node : RDFNode) (c : Class)
    (h : getArray node rdfsSubClassOf = []) : classSetParent node c = c := by
  unfold classSetParent
  rw [h]

theorem classSetNodeKind_Parent (node : RDFNode) (c : Class) :
    (classSetNodeKind node c).Parent = c.Parent := by
  unfold classSetNodeKind
  repeat' split
  all_goals rfl

/-- Whether a decode of the top level can succeed: a JSON `null` (Go decodes
it into the nil slice without error) or an array whose every element is an
object or `null`. -/
def decodableTopLevel : JSON → Bool
  | .null => true
  | .arr xs => xs.all (fun x =>
      match x with
      | .obj _ => true
      | .null => true
      | _ => false)
  | _ => false

/-- Comparison definition following the claim's words: the top level is a
JSON array of (node) objects. -/
def isArrayOfNodeObjects : JSON → Bool
  | .arr xs => xs.all (fun x =>
      match x with
      | .obj _ => true
      | _ => false)
  | _ => false

/-- Counterexample to C4 as stated: a JSON `null` top level is not an array
of node objects, yet ParseFile succeeds with an empty Model instead of
returning UnmarshalError — Go's Unmarshal treats a `null` as a no-op on the
target slice. -/
theorem parseFile_null_toplevel_ok :
    parseFile (.jsonValue .null) = .ok (extractModel []) ∧
      isArrayOfNodeObjects .null = false := ⟨rfl, rfl⟩

theorem decodeNodeList_isSome (xs : List JSON) :
    (decodeNodeList xs).isSome = xs.all (fun x => (decodeNode x).isSome) := by
  induction xs with
  | nil => rfl
  | cons x rest ih =>
    cases hx : decodeNode x with
    | none => simp [decodeNodeList, hx]
    | some n =>
      cases hr : decodeNodeList rest with
      | none => simp [decodeNodeList, hx, hr, ← ih]
      | some l => simp [decodeNodeList, hx, hr, ← ih]

/-- C4 as amended: ParseFile fails with ReadError exactly on an unreadable
source and with UnmarshalError exactly when the bytes are not valid JSON or
the top level does not decode as an array of node objects — where a JSON
`null` decodes as an empty array and a `null` element as an empty node; on
every decodable input the three-pass extraction is total, and field-level
omissions (missing statement, dangling blank-node reference, undecodable
literal) are absorbed leaving the zero value. -/
theorem parseFile_error_characterization :
    (parseFile .unreadable = .error .readError) ∧
    (parseFile .invalidJSON = .error .unmarshalError) ∧
    (∀ j : JSON, decodeNodes j = none → parseFile (.jsonValue j) = .error .unmarshalError) ∧
    (∀ (j : JSON) (ns : List RDFNode), decodeNodes j = some ns →
      parseFile (.jsonValue j) = .ok (extractModel ns)) ∧
    (∀ j : JSON, (decodeNodes j).isSome = decodableTopLevel j) ∧
    (∀ (id : Str) (node : RDFNode), getArray node rdfsSubClassOf = [] →
      (parseClass id node).Parent = []) ∧
    (∀ (blanks : List (Str × RDFNode)) (c : Class) (raw : JSON) (refID : Str),
      unmarshalIDRef raw = some refID → lookupA blanks refID = none →
      shapeStep blanks c raw = c) ∧
    (∀ (node : RDFNode) (r : JSON) (rest : List JSON),
      getArray node rdfsComment = r :: rest → unmarshalComment r = none →
      getComment node = []) := by
  refine ⟨rfl, rfl, ?_, ?_, ?_, ?_, ?_, ?_⟩
  · intro j h
    simp [parseFile, h]
  · intro j ns h
    simp [parseFile, h]
  · intro j
    cases j with
    | null => rfl
    | bool b => rfl
    | num n => rfl
    | str s => rfl
    | obj fs => rfl
    | arr xs =>
      have hpt : ∀ x : JSON, (decodeNode x).isSome =
          (match x with
            | .obj _ => true
            | .null => true
            | _ => false) := by
        intro x
        cases x <;> rfl
      rw [show decodeNodes (.arr xs) = decodeNodeList xs from rfl,
        decodeNodeList_isSome]
      simp only [hpt]
      rfl
  · intro id node h
    unfold parseClass
    rw [classSetParent_nil _ _ h, classSetNodeKind_Parent]
  · intro blanks c raw refID h1 h2
    simp [shapeStep, resolveShapeEntry, h1, h2]
  · intro node r rest h1 h2
    simp [getComment, h1, h2]

/-- Witness for the amended C4 at concrete inputs: a numeric top level fails,
an empty array succeeds, and a class node without a subclass statement gets
an empty Parent. -/
theorem parseFile_error_characterization_witness :
    parseFile (.jsonValue (.num 3)) = .error .unmarshalError ∧
    parseFile (.jsonValue (.arr [])) = .ok (extractModel []) ∧
    (parseClass "https://e/c".toList []).Parent = [] :=
  ⟨parseFile_error_characterization.2.2.1 (.num 3) rfl,
   parseFile_error_characterization.2.2.2.1 (.arr []) [] rfl,
   parseFile_error_characterization.2.2.2.2.2.1 "https://e/c".toList [] rfl⟩

end Spdx
